import Mathlib

/-!
# Verification of the vapi-call-center transcript pipeline

Shallow embedding of the repository's transcript/session logic and its
HTTP relay handlers:

* the `VoiceAgent` React component (transcript merge rule, deduplication at
  call end, speaking/listening activity flags),
* the Express server `server/index.ts` (`normalizeToE164Like`,
  `POST /api/vapi/outbound-call`, `POST /api/vapi/outbound-campaign`,
  `POST /api/transcripts`).

JavaScript strings are modelled as lists of Unicode code points
(`List Nat`); timestamps (`Date.now()`) as `Nat` milliseconds.
-/

namespace VapiCC

/-- JavaScript whitespace (the code-point set matched by the regex class
`\s` and removed by `String.prototype.trim`). -/
def jsWhitespace (n : Nat) : Prop :=
  (9 ≤ n ∧ n ≤ 13) ∨ n = 32 ∨ n = 160 ∨ n = 0x1680 ∨
    (0x2000 ≤ n ∧ n ≤ 0x200A) ∨ n = 0x2028 ∨ n = 0x2029 ∨ n = 0x202F ∨
    n = 0x205F ∨ n = 0x3000 ∨ n = 0xFEFF

instance (n : Nat) : Decidable (jsWhitespace n) := by
  unfold jsWhitespace; infer_instance

/-- Boolean form of `jsWhitespace`, used by the executable definitions. -/
def wsB (n : Nat) : Bool := decide (jsWhitespace n)

/-- JavaScript `String.prototype.trim`: drop whitespace from both ends. -/
def jsTrim (l : List Nat) : List Nat :=
  (((l.dropWhile wsB).reverse.dropWhile wsB).reverse)

/-- `String.prototype.toLowerCase`, restricted to its action on the ASCII
range (the only code points the transcript normalization regex keeps). -/
def jsToLower (n : Nat) : Nat :=
  if 65 ≤ n ∧ n ≤ 90 then n + 32 else n

/-- ASCII digit code point (`/\d/`, i.e. `'0'..'9'`). -/
def isDigitN (n : Nat) : Bool := decide (48 ≤ n ∧ n ≤ 57)

/-- Code points kept by the normalization regex `[^a-z0-9\s]` of
`deduplicateTranscript` (it *removes* everything outside this class). -/
def keepB (n : Nat) : Bool :=
  decide ((97 ≤ n ∧ n ≤ 122) ∨ (48 ≤ n ∧ n ≤ 57) ∨ jsWhitespace n)

/-- Encode a Lean string literal as a list of code points, for writing
concrete test inputs. -/
def codes (s : String) : List Nat := s.toList.map Char.toNat

/-! ## Transcript data model (`VoiceAgent.tsx`) -/

/-- `interface TranscriptMessage { role: string; text: string; timestamp: number }`. -/
structure TranscriptMessage where
  role : List Nat
  text : List Nat
  timestamp : Nat
deriving DecidableEq, Repr

/-- `message.text.toLowerCase().replace(/[^a-z0-9\s]/g, '').trim()`
from `deduplicateTranscript`. -/
def normalizedTextOf (text : List Nat) : List Nat :=
  jsTrim ((text.map jsToLower).filter keepB)

/-- The dedup key `` `${message.role}|${normalizedText}` `` (code point 124
is `'|'`). -/
def implKey (m : TranscriptMessage) : List Nat :=
  m.role ++ 124 :: normalizedTextOf m.text

/-- The loop body of `deduplicateTranscript`: `seen` is the contents of the
`seenKeys` set. -/
def dedupGo : List (List Nat) → List TranscriptMessage → List TranscriptMessage
  | _, [] => []
  | seen, m :: rest =>
    if implKey m ∈ seen then dedupGo seen rest
    else m :: dedupGo (implKey m :: seen) rest

/-- `deduplicateTranscript` from `VoiceAgent.tsx`. -/
def deduplicateTranscript (messages : List TranscriptMessage) : List TranscriptMessage :=
  dedupGo [] messages

/-! ## Phone normalization (`server/index.ts`, `normalizeToE164Like`) -/

/-- `normalizeToE164Like(input, defaultCountryCode = "1")` from
`server/index.ts`.  `dcc` is the default country code (the handlers use the
default `"1"`, i.e. `[49]`). -/
def normalizeToE164Like (input dcc : List Nat) : Option (List Nat) :=
  let raw := jsTrim input
  match raw with
  | [] => none
  | c :: _ =>
    if c = 43 then
      let digits := raw.filter isDigitN
      if digits = [] then none else some (43 :: digits)
    else
      let digits := raw.filter isDigitN
      if digits.length = 11 ∧ digits.head? = some 49 then some (43 :: digits)
      else if digits.length = 10 then some (43 :: (dcc ++ digits))
      else if 7 ≤ digits.length ∧ digits.length ≤ 15 then some (43 :: digits)
      else none

/-! ## The transcript-fragment handler (`vapiInstance.on("message")`) -/

/-- The body of the `"message"` handler for `message.type === "transcript"`:
trim the raw text, discard the event when empty, otherwise either replace
the last message (same role, updated less than 3000 ms ago) or append a new
one.  `now` is the value of `Date.now()` at delivery. -/
def applyFragment (now : Nat) (role rawText : List Nat)
    (prev : List TranscriptMessage) : List TranscriptMessage :=
  let text := jsTrim rawText
  if text = [] then prev
  else
    match prev.getLast? with
    | some lastMessage =>
      if lastMessage.role = role ∧ now - lastMessage.timestamp < 3000 then
        prev.dropLast ++ [{ lastMessage with text := text, timestamp := now }]
      else prev ++ [⟨role, text, now⟩]
    | none => prev ++ [⟨role, text, now⟩]

/-! ## VoiceAgent session state machine -/

/-- The `VoiceAgent` component state relevant to the session (the pieces of
`useState` the event handlers read and write).  The `vapi` instance is
assumed constructed (the handlers below only exist once it is). -/
structure AgentState where
  isConnected : Bool
  isSpeaking : Bool
  isListening : Bool
  transcript : List TranscriptMessage
  error : Option String
  callEnded : Bool
  callStartedAt : Option Nat
deriving Repr

/-- Component state right after mount: all flags false, empty transcript. -/
def initState : AgentState :=
  { isConnected := false, isSpeaking := false, isListening := false,
    transcript := [], error := none, callEnded := false,
    callStartedAt := none }

/-- The externally delivered events and user actions handled by
`VoiceAgent`: the platform events `call-start`, `call-end`,
`speech-start`, `speech-end`, transcript `message`, `error`, the user
actions `startCall` (with the success of `vapi.start`) and `endCall`, and
the firing of the 3000 ms post-end display timeout. -/
inductive AgentEvent where
  | callStart (now : Nat)
  | callEnd (now : Nat)
  | speechStart
  | speechEnd
  | message (now : Nat) (role rawText : List Nat)
  | errorEvt
  | startCall (ok : Bool)
  | endCall
  | endedTimeout
deriving DecidableEq, Repr

/-- Fixed message set by the `"error"` handler. -/
def errConnectMsg : String :=
  "Error connecting to voice assistant. Please try again."

/-- Fixed message set when `vapi.start` rejects in `startCall`. -/
def errStartMsg : String :=
  "Failed to start voice call. Please check your permissions."

/-- One step of the `VoiceAgent` state machine: the effect of each event
handler on the component state, transcribed handler by handler. -/
def step (s : AgentState) : AgentEvent → AgentState
  | .callStart now =>
    { s with isConnected := true, error := none, callEnded := false,
             callStartedAt := some now }
  | .callEnd _ =>
    { s with isConnected := false, isSpeaking := false, isListening := false,
             callEnded := true, callStartedAt := none }
  | .speechStart => { s with isSpeaking := true, isListening := false }
  | .speechEnd => { s with isSpeaking := false, isListening := true }
  | .message now role rawText =>
    { s with transcript := applyFragment now role rawText s.transcript }
  | .errorEvt => { s with error := some errConnectMsg }
  | .startCall ok =>
    if ok then { s with error := none, transcript := [], isListening := true }
    else { s with error := some errStartMsg, transcript := [] }
  | .endCall => s
  | .endedTimeout => { s with callEnded := false }

/-- Run a sequence of events from a state. -/
def runEvents (s : AgentState) : List AgentEvent → AgentState
  | [] => s
  | e :: rest => runEvents (step s e) rest

/-- `true` when both activity flags are raised simultaneously. -/
def bothActive (s : AgentState) : Bool := s.isSpeaking && s.isListening

/-- Holds of an event sequence (run from `s`) in which every `startCall`
fires in a state where `isSpeaking` is false. -/
def startCallSafe : AgentState → List AgentEvent → Bool
  | _, [] => true
  | s, e :: rest =>
    (match e with
     | .startCall _ => !s.isSpeaking
     | _ => true) && startCallSafe (step s e) rest

/-! ## `POST /api/transcripts` (`server/index.ts`) -/

/-- The JSON value found in an entry's `timestamp` field: a number, or
something that is not a number (which `z.number()` rejects). -/
inductive TsVal where
  | num (t : Int)
  | notNum
deriving DecidableEq, Repr

/-- One element of the request's `transcript` array. -/
structure TEntry where
  role : List Nat
  text : List Nat
  timestamp : TsVal
deriving DecidableEq, Repr

/-- A `POST /api/transcripts` request body, modelled over the fields named
by `TranscriptForwardSchema` (assumed well-typed where present) plus the
*names* of any top-level fields not named in the schema (`extra`). -/
structure TBody where
  callId : Option (List Nat)
  assistantId : Option (List Nat)
  startedAt : Option Int
  endedAt : Option Int
  transcript : Option (List TEntry)
  metadata : Option (List (List Nat × List Nat))
  extra : List (List Nat)
deriving DecidableEq, Repr

/-- Validation of one transcript entry by the zod schema:
`role: z.string().min(1), text: z.string().min(1), timestamp: z.number()`. -/
def validEntry (e : TEntry) : Bool :=
  decide (1 ≤ e.role.length) && decide (1 ≤ e.text.length) &&
    (match e.timestamp with | .num _ => true | .notNum => false)

/-- The output of a successful `TranscriptForwardSchema.safeParse`: the
schema's fields only — zod's default object parsing strips unknown keys. -/
structure TPayload where
  callId : Option (List Nat)
  assistantId : Option (List Nat)
  startedAt : Option Int
  endedAt : Option Int
  transcript : List TEntry
  metadata : Option (List (List Nat × List Nat))
deriving DecidableEq, Repr

/-- `TranscriptForwardSchema.safeParse` on a body: `some` of the parsed
data on success, `none` on validation failure. -/
def parseTB (b : TBody) : Option TPayload :=
  match b.transcript with
  | none => none
  | some ts =>
    if decide (1 ≤ ts.length) && ts.all validEntry then
      some ⟨b.callId, b.assistantId, b.startedAt, b.endedAt, ts, b.metadata⟩
    else none

/-- Whether a body passes `TranscriptForwardSchema`. -/
def validTB (b : TBody) : Bool := (parseTB b).isSome

/-- Re-encode a parsed payload as the request body `JSON.stringify` would
reproduce: the schema fields, and no unknown top-level fields. -/
def payloadAsBody (p : TPayload) : TBody :=
  ⟨p.callId, p.assistantId, p.startedAt, p.endedAt, some p.transcript,
    p.metadata, []⟩

/-- Outcome of the `fetch` to the n8n webhook: resolved with `response.ok`
true, resolved with a non-success status, or rejected/threw. -/
inductive FetchOutcome where
  | ok
  | httpError
  | threw
deriving DecidableEq, Repr

/-- The responses of the `/api/transcripts` handler. -/
inductive TResp where
  | invalid   -- 400 {error, details}
  | tooLarge  -- 413 {error}
  | success   -- 200 {ok: true}
  | upstream  -- 502 {error}
deriving DecidableEq, Repr

/-- HTTP status of each `/api/transcripts` response. -/
def trStatus : TResp → Nat
  | .invalid => 400
  | .tooLarge => 413
  | .success => 200
  | .upstream => 502

/-- The `/api/transcripts` handler: validate, cap at 2000 entries, forward
the parsed payload to the webhook.  Returns the response together with the
payload POSTed to the webhook, if a forward was attempted. -/
def handleTranscripts (b : TBody) (w : FetchOutcome) : TResp × Option TPayload :=
  match parseTB b with
  | none => (.invalid, none)
  | some payload =>
    if decide (2000 < payload.transcript.length) then (.tooLarge, none)
    else
      match w with
      | .ok => (.success, some payload)
      | .httpError => (.upstream, some payload)
      | .threw => (.upstream, some payload)

/-! ## `POST /api/vapi/outbound-call` and `/api/vapi/outbound-campaign` -/

/-- The `customer` object of an outbound-call body. -/
structure OCCustomer where
  number : List Nat
  name : Option (List Nat)
deriving DecidableEq, Repr

/-- A `POST /api/vapi/outbound-call` body (fields assumed present and
string-typed; zod's `.min` bounds are what validation checks). -/
structure OCBody where
  phoneNumberId : List Nat
  assistantId : List Nat
  customer : OCCustomer
deriving DecidableEq, Repr

/-- `OutboundCallSchema` validation: `phoneNumberId` and `assistantId`
nonempty, `customer.number` at least 7 characters. -/
def validOC (b : OCBody) : Bool :=
  decide (1 ≤ b.phoneNumberId.length) && decide (1 ≤ b.assistantId.length) &&
    decide (7 ≤ b.customer.number.length)

/-- The shape of `vapi.calls.create`'s response: either an object with an
`id`, or an object carrying a `results` array. -/
inductive VapiCallResp where
  | withId (id : List Nat)
  | withResults (ids : List (List Nat))
deriving DecidableEq, Repr

/-- `"id" in callResponse ? callResponse.id : callResponse.results?.[0]?.id`. -/
def extractCallId : VapiCallResp → Option (List Nat)
  | .withId i => some i
  | .withResults rs => rs.head?

/-- Outcome of the awaited `vapi.calls.create` call. -/
inductive UpstreamOutcome where
  | succeeded (r : VapiCallResp)
  | threw
deriving DecidableEq, Repr

/-- The responses of the `/api/vapi/outbound-call` handler. -/
inductive OCResp where
  | serverError    -- 500 {error: "Server not configured for Vapi"}
  | invalid        -- 400 {error: "Invalid payload", details}
  | badNumber      -- 400 {error: "Invalid customer number"}
  | created (id : Option (List Nat)) (call : VapiCallResp)  -- 201 {id, call}
  | upstreamFailed -- 502 {error: "Failed to create call"}
deriving DecidableEq, Repr

/-- HTTP status of each outbound-call response. -/
def ocStatus : OCResp → Nat
  | .serverError => 500
  | .invalid => 400
  | .badNumber => 400
  | .created _ _ => 201
  | .upstreamFailed => 502

/-- The `/api/vapi/outbound-call` handler.  `keyConfigured` is whether
`VAPI_API_KEY` is set; `u` is the behavior of the upstream SDK call. -/
def outboundCallHandler (keyConfigured : Bool) (b : OCBody)
    (u : UpstreamOutcome) : OCResp :=
  if !keyConfigured then .serverError
  else if !(validOC b) then .invalid
  else
    match normalizeToE164Like b.customer.number [49] with
    | none => .badNumber
    | some _ =>
      match u with
      | .succeeded r => .created (extractCallId r) r
      | .threw => .upstreamFailed

/-- A `POST /api/vapi/outbound-campaign` body: the outbound-call shape plus
an optional `name` (`z.string().min(1).default("Web Campaign")`; `none`
models an absent field, which the default fills in). -/
structure CampBody where
  phoneNumberId : List Nat
  assistantId : List Nat
  name : Option (List Nat)
  customer : OCCustomer
deriving DecidableEq, Repr

/-- `OutboundCampaignSchema` validation. -/
def validCamp (b : CampBody) : Bool :=
  decide (1 ≤ b.phoneNumberId.length) && decide (1 ≤ b.assistantId.length) &&
    (match b.name with | none => true | some s => decide (1 ≤ s.length)) &&
    decide (7 ≤ b.customer.number.length)

/-- Outcome of the awaited `vapi.campaigns.campaignControllerCreate`. -/
inductive CampaignOutcome where
  | succeeded (id : List Nat)
  | threw
deriving DecidableEq, Repr

/-- The responses of the `/api/vapi/outbound-campaign` handler. -/
inductive CampResp where
  | serverError
  | invalid
  | badNumber
  | created (id : List Nat)
  | upstreamFailed
deriving DecidableEq, Repr

/-- HTTP status of each outbound-campaign response. -/
def campStatus : CampResp → Nat
  | .serverError => 500
  | .invalid => 400
  | .badNumber => 400
  | .created _ => 201
  | .upstreamFailed => 502

/-- The `/api/vapi/outbound-campaign` handler. -/
def outboundCampaignHandler (keyConfigured : Bool) (b : CampBody)
    (u : CampaignOutcome) : CampResp :=
  if !keyConfigured then .serverError
  else if !(validCamp b) then .invalid
  else
    match normalizeToE164Like b.customer.number [49] with
    | none => .badNumber
    | some _ =>
      match u with
      | .succeeded cid => .created cid
      | .threw => .upstreamFailed

/-! ## Spec-side definitions (written from the specification's wording,
for comparison with the source-derived definitions above) -/

/-- The spec's phone normalization rule, following its wording: after
trimming, a `+`-prefixed input yields `+` followed by all digit characters
of the input (invalid if none); otherwise, with `digits` the digit
characters of the input: 11 digits starting with `1` → `+digits`; exactly
10 digits → `+` + default country code `1` + digits; 7–15 digits →
`+digits`; anything else invalid. -/
def phoneSpec (input : List Nat) : Option (List Nat) :=
  let trimmed := jsTrim input
  let digits := input.filter isDigitN
  if trimmed.head? = some 43 then
    if digits = [] then none else some (43 :: digits)
  else if digits.length = 11 ∧ digits.head? = some 49 then some (43 :: digits)
  else if digits.length = 10 then some (43 :: 49 :: digits)
  else if 7 ≤ digits.length ∧ digits.length ≤ 15 then some (43 :: digits)
  else none

/-- The spec's character class for dedup normalization: ASCII letter
(either case), digit, or whitespace. -/
def specKeepB (n : Nat) : Bool :=
  decide ((65 ≤ n ∧ n ≤ 90) ∨ (97 ≤ n ∧ n ≤ 122) ∨ (48 ≤ n ∧ n ≤ 57) ∨
    jsWhitespace n)

/-- The spec's dedup text normalization: lower-case, remove every
character that is not an ASCII letter, digit, or whitespace, then trim. -/
def specNormalize (text : List Nat) : List Nat :=
  jsTrim ((text.map jsToLower).filter specKeepB)

/-- The spec's dedup key: the pair `(role, normalizedText)`. -/
def specKey (m : TranscriptMessage) : List Nat × List Nat :=
  (m.role, specNormalize m.text)

/-- The spec's dedup filter: keep a message exactly when its key did not
occur earlier in the list (`earlier` being the already-scanned prefix). -/
def dedupSpecGo : List TranscriptMessage → List TranscriptMessage →
    List TranscriptMessage
  | _, [] => []
  | earlier, m :: rest =>
    if specKey m ∈ earlier.map specKey then dedupSpecGo (earlier ++ [m]) rest
    else m :: dedupSpecGo (earlier ++ [m]) rest

/-- The spec's description of deduplication: a stable, order-preserving,
first-occurrence-wins filter over `(role, normalizedText)` keys. -/
def dedupSpec (ms : List TranscriptMessage) : List TranscriptMessage :=
  dedupSpecGo [] ms

/-! ## Helper lemmas about trimming and filtering -/

lemma filter_dropWhile_of_imp {p q : Nat → Bool}
    (h : ∀ a, q a = true → p a = false) (l : List Nat) :
    List.filter p (List.dropWhile q l) = List.filter p l := by
  induction l with
  | nil => rfl
  | cons a l ih =>
    rw [List.dropWhile_cons]
    by_cases hq : q a = true
    · rw [if_pos hq, ih, List.filter_cons, h a hq]; simp
    · rw [if_neg hq]

lemma filter_jsTrim {p : Nat → Bool} (h : ∀ a, wsB a = true → p a = false)
    (l : List Nat) : List.filter p (jsTrim l) = List.filter p l := by
  unfold jsTrim
  rw [List.filter_reverse, filter_dropWhile_of_imp h, List.filter_reverse,
    filter_dropWhile_of_imp h, List.reverse_reverse]

lemma ws_not_digit : ∀ a, wsB a = true → isDigitN a = false := by
  intro a
  unfold wsB isDigitN jsWhitespace
  simp only [decide_eq_true_eq, decide_eq_false_iff_not]
  omega

/-! ## Helper lemmas about dedup keys -/

lemma mem_jsTrim {x : Nat} {l : List Nat} (h : x ∈ jsTrim l) : x ∈ l := by
  unfold jsTrim at h
  rw [List.mem_reverse] at h
  have h1 : x ∈ (List.dropWhile wsB l).reverse :=
    List.Sublist.mem h (List.dropWhile_sublist wsB)
  rw [List.mem_reverse] at h1
  exact List.Sublist.mem h1 (List.dropWhile_sublist wsB)

lemma jsToLower_not_upper (c : Nat) : ¬(65 ≤ jsToLower c ∧ jsToLower c ≤ 90) := by
  unfold jsToLower
  split <;> omega

lemma specKeepB_toLower (c : Nat) :
    specKeepB (jsToLower c) = keepB (jsToLower c) := by
  have h := jsToLower_not_upper c
  unfold specKeepB keepB
  exact decide_eq_decide.mpr (by tauto)

lemma specNormalize_eq (t : List Nat) : specNormalize t = normalizedTextOf t := by
  unfold specNormalize normalizedTextOf
  congr 1
  apply List.filter_congr
  intro x hx
  rcases List.mem_map.mp hx with ⟨c, _, rfl⟩
  exact specKeepB_toLower c

lemma sep_not_mem_normalized (t : List Nat) : 124 ∉ normalizedTextOf t := by
  intro h
  have h1 := mem_jsTrim h
  have h2 := (List.mem_filter.mp h1).2
  simp only [keepB, jsWhitespace, decide_eq_true_eq] at h2
  omega

lemma sep_split_left : ∀ (c₁ c₂ d₁ d₂ : List Nat), 124 ∉ c₁ → 124 ∉ c₂ →
    c₁ ++ 124 :: d₁ = c₂ ++ 124 :: d₂ → c₁ = c₂ ∧ d₁ = d₂ := by
  intro c₁
  induction c₁ with
  | nil =>
    intro c₂ d₁ d₂ _ h₂ heq
    cases c₂ with
    | nil => simpa using heq
    | cons y c₂ =>
      simp only [List.nil_append, List.cons_append, List.cons.injEq] at heq
      exact absurd (List.mem_cons.mpr (Or.inl heq.1)) h₂
  | cons x c₁ ih =>
    intro c₂ d₁ d₂ h₁ h₂ heq
    cases c₂ with
    | nil =>
      simp only [List.cons_append, List.nil_append, List.cons.injEq] at heq
      exact absurd (List.mem_cons.mpr (Or.inl heq.1.symm)) h₁
    | cons y c₂ =>
      simp only [List.cons_append, List.cons.injEq] at heq
      have hrec := ih c₂ d₁ d₂ (fun h => h₁ (List.mem_cons_of_mem x h))
        (fun h => h₂ (List.mem_cons_of_mem y h)) heq.2
      exact ⟨by rw [heq.1, hrec.1], hrec.2⟩

lemma implKey_eq_iff (m m' : TranscriptMessage) :
    implKey m = implKey m' ↔ specKey m = specKey m' := by
  unfold implKey specKey
  rw [specNormalize_eq, specNormalize_eq]
  constructor
  · intro h
    have h' : (normalizedTextOf m.text).reverse ++ 124 :: m.role.reverse
        = (normalizedTextOf m'.text).reverse ++ 124 :: m'.role.reverse := by
      have hrev := congrArg List.reverse h
      simpa [List.reverse_append, List.append_assoc] using hrev
    have hsp := sep_split_left _ _ _ _
      (by rw [List.mem_reverse]; exact sep_not_mem_normalized m.text)
      (by rw [List.mem_reverse]; exact sep_not_mem_normalized m'.text) h'
    have h1 : m.role = m'.role := List.reverse_injective hsp.2
    have h2 : normalizedTextOf m.text = normalizedTextOf m'.text :=
      List.reverse_injective hsp.1
    rw [Prod.mk.injEq]
    exact ⟨h1, h2⟩
  · intro h
    rw [Prod.mk.injEq] at h
    rw [h.1, h.2]

lemma dedupGo_eq_specGo (l : List TranscriptMessage) :
    ∀ (seen : List (List Nat)) (earlier : List TranscriptMessage),
    (∀ m : TranscriptMessage, implKey m ∈ seen ↔ specKey m ∈ earlier.map specKey) →
    dedupGo seen l = dedupSpecGo earlier l := by
  induction l with
  | nil => intro seen earlier _; rfl
  | cons m rest ih =>
    intro seen earlier hinv
    unfold dedupGo dedupSpecGo
    by_cases hm : implKey m ∈ seen
    · rw [if_pos hm, if_pos ((hinv m).mp hm)]
      apply ih
      intro m'
      rw [List.map_append, List.mem_append]
      constructor
      · intro h'
        exact Or.inl ((hinv m').mp h')
      · rintro (h' | h')
        · exact (hinv m').mpr h'
        · simp only [List.map_cons, List.map_nil, List.mem_singleton] at h'
          have hk : implKey m' = implKey m := (implKey_eq_iff m' m).mpr h'
          rw [hk]; exact hm
    · rw [if_neg hm, if_neg (fun h => hm ((hinv m).mpr h))]
      congr 1
      apply ih
      intro m'
      simp only [List.mem_cons, List.map_append, List.mem_append, List.map_cons,
        List.map_nil, List.mem_singleton, List.not_mem_nil, or_false]
      constructor
      · rintro (h' | h')
        · exact Or.inr ((implKey_eq_iff m' m).mp h')
        · exact Or.inl ((hinv m').mp h')
      · rintro (h' | h')
        · exact Or.inr ((hinv m').mpr h')
        · exact Or.inl ((implKey_eq_iff m' m).mpr h')

lemma dedupGo_sublist (seen : List (List Nat)) (l : List TranscriptMessage) :
    (dedupGo seen l).Sublist l := by
  induction l generalizing seen with
  | nil => simp [dedupGo]
  | cons m rest ih =>
    unfold dedupGo
    by_cases hm : implKey m ∈ seen
    · rw [if_pos hm]; exact (ih seen).cons m
    · rw [if_neg hm]; exact (ih _).cons₂ m

lemma dedupGo_mem_not_seen : ∀ (l : List TranscriptMessage)
    (seen : List (List Nat)) (m : TranscriptMessage),
    m ∈ dedupGo seen l → implKey m ∉ seen := by
  intro l
  induction l with
  | nil => intro seen m h; simp [dedupGo] at h
  | cons a rest ih =>
    intro seen m h
    unfold dedupGo at h
    by_cases ha : implKey a ∈ seen
    · rw [if_pos ha] at h; exact ih seen m h
    · rw [if_neg ha] at h
      rcases List.mem_cons.mp h with rfl | h'
      · exact ha
      · have h2 := ih _ m h'
        exact fun hmem => h2 (List.mem_cons_of_mem _ hmem)

lemma dedupGo_keys_nodup : ∀ (l : List TranscriptMessage)
    (seen : List (List Nat)), ((dedupGo seen l).map implKey).Nodup := by
  intro l
  induction l with
  | nil => intro seen; simp [dedupGo]
  | cons a rest ih =>
    intro seen
    unfold dedupGo
    by_cases ha : implKey a ∈ seen
    · rw [if_pos ha]; exact ih seen
    · rw [if_neg ha]
      rw [List.map_cons, List.nodup_cons]
      refine ⟨?_, ih _⟩
      intro hmem
      rcases List.mem_map.mp hmem with ⟨m', hm', hkey⟩
      have hns := dedupGo_mem_not_seen rest _ m' hm'
      exact hns (by rw [hkey]; exact List.mem_cons_self _ _)

lemma dedupGo_of_nodup : ∀ (l : List TranscriptMessage)
    (seen : List (List Nat)),
    (∀ m ∈ l, implKey m ∉ seen) → (l.map implKey).Nodup →
    dedupGo seen l = l := by
  intro l
  induction l with
  | nil => intro seen _ _; rfl
  | cons a rest ih =>
    intro seen hs hn
    unfold dedupGo
    rw [if_neg (hs a (List.mem_cons_self a rest))]
    congr 1
    rw [List.map_cons, List.nodup_cons] at hn
    apply ih
    · intro m hm
      rw [List.mem_cons]
      rintro (heq | hmem)
      · exact hn.1 (heq ▸ List.mem_map_of_mem implKey hm)
      · exact hs m (List.mem_cons_of_mem a hm) hmem
    · exact hn.2

/-! ## Claim theorems -/

/-- C3: `normalizeToE164Like` implements the spec's phone normalization
rule for every input string (trimmed `+`-prefix branch, 11-digits-with-1,
exactly-10, 7–15, otherwise invalid), and in particular maps
`"5551234567"` to `"+15551234567"`, `"15551234567"` to `"+15551234567"`,
`"+44 20 7946 0958"` to `"+442079460958"`, and `"123"` and `""` to
null. -/
theorem phone_normalization_spec :
    (∀ input, normalizeToE164Like input [49] = phoneSpec input) ∧
    normalizeToE164Like (codes "5551234567") [49] = some (codes "+15551234567") ∧
    normalizeToE164Like (codes "15551234567") [49] = some (codes "+15551234567") ∧
    normalizeToE164Like (codes "+44 20 7946 0958") [49] = some (codes "+442079460958") ∧
    normalizeToE164Like (codes "123") [49] = none ∧
    normalizeToE164Like (codes "") [49] = none := by
  refine ⟨?_, by decide, by decide, by decide, by decide, by decide⟩
  intro input
  have hd : List.filter isDigitN (jsTrim input) = List.filter isDigitN input :=
    filter_jsTrim ws_not_digit input
  unfold normalizeToE164Like phoneSpec
  cases h : jsTrim input with
  | nil =>
    rw [h] at hd
    simp only [List.filter_nil] at hd
    simp [h, ← hd]
  | cons c rest =>
    rw [h] at hd
    by_cases hc : c = 43
    · simp [h, hc, ← hd]
    · simp [h, hc, ← hd]

/-! ## Fragment-run machinery for C1 -/

/-- A fragment at time `now` with role `r` starts a new message on `ts`:
the transcript is empty, or its last message has a different role or was
updated 3000 ms or more ago. -/
def freshFor (now : Nat) (r : List Nat) (ts : List TranscriptMessage) : Bool :=
  match ts.getLast? with
  | none => true
  | some m => decide (m.role ≠ r ∨ 3000 ≤ now - m.timestamp)

/-- A run of fragments `(time, text)` after an update at time `n`: each is
delivered strictly less than 3000 ms after the previous update, and each
text is already trimmed and non-empty. -/
def chainFrom (n : Nat) : List (Nat × List Nat) → Bool
  | [] => true
  | (m, t) :: rest =>
    decide (m - n < 3000) && decide (jsTrim t = t) && decide (t ≠ []) &&
      chainFrom m rest

/-- Deliver a list of fragments `(time, text)` with a fixed role to the
transcript, in order. -/
def runFragments (r : List Nat) :
    List (Nat × List Nat) → List TranscriptMessage → List TranscriptMessage
  | [], ts => ts
  | (n, t) :: rest, ts => runFragments r rest (applyFragment n r t ts)

/-- The last fragment of the run `(n, t) :: frags`. -/
def lastFrag (n : Nat) (t : List Nat) : List (Nat × List Nat) → Nat × List Nat
  | [] => (n, t)
  | (m, u) :: rest => lastFrag m u rest

lemma applyFragment_merge (now : Nat) (r rawText : List Nat)
    (l : List TranscriptMessage) (m : TranscriptMessage)
    (hraw : jsTrim rawText ≠ []) (hrole : m.role = r)
    (htime : now - m.timestamp < 3000) :
    applyFragment now r rawText (l ++ [m]) = l ++ [⟨r, jsTrim rawText, now⟩] := by
  obtain ⟨mr, mt, mts⟩ := m
  simp only at hrole htime
  subst hrole
  simp only [applyFragment, List.getLast?_concat, List.dropLast_concat]
  rw [if_neg hraw, if_pos ⟨trivial, htime⟩]

lemma applyFragment_append (now : Nat) (r rawText : List Nat)
    (prev : List TranscriptMessage)
    (hraw : jsTrim rawText ≠ []) (hfresh : freshFor now r prev = true) :
    applyFragment now r rawText prev = prev ++ [⟨r, jsTrim rawText, now⟩] := by
  rcases List.eq_nil_or_concat prev with rfl | ⟨l, m, rfl⟩
  · simp only [applyFragment]
    rw [if_neg hraw]
    rfl
  · simp only [List.concat_eq_append] at hfresh ⊢
    unfold freshFor at hfresh
    rw [List.getLast?_concat] at hfresh
    simp only [decide_eq_true_eq] at hfresh
    have hneg : ¬(m.role = r ∧ now - m.timestamp < 3000) := by
      rcases hfresh with h | h
      · exact fun hc => h hc.1
      · exact fun hc => absurd hc.2 (by omega)
    simp only [applyFragment, List.getLast?_concat]
    rw [if_neg hraw, if_neg hneg]

lemma runFragments_merge (r : List Nat) :
    ∀ (frags : List (Nat × List Nat)) (ts0 : List TranscriptMessage)
      (t : List Nat) (n : Nat), chainFrom n frags = true →
    runFragments r frags (ts0 ++ [⟨r, t, n⟩])
      = ts0 ++ [⟨r, (lastFrag n t frags).2, (lastFrag n t frags).1⟩] := by
  intro frags
  induction frags with
  | nil => intro ts0 t n _; rfl
  | cons p rest ih =>
    obtain ⟨m, u⟩ := p
    intro ts0 t n hc
    unfold chainFrom at hc
    simp only [Bool.and_eq_true, decide_eq_true_eq] at hc
    obtain ⟨⟨⟨h1, h2⟩, h3⟩, h4⟩ := hc
    show runFragments r rest (applyFragment m r u (ts0 ++ [⟨r, t, n⟩])) = _
    rw [applyFragment_merge m r u ts0 ⟨r, t, n⟩ (by rw [h2]; exact h3) rfl h1, h2]
    exact ih ts0 u m h4

/-- C1: delivering a non-empty (after trimming) fragment either replaces
the last transcript message in full — when that message has the same role
and was updated strictly less than 3000 ms ago — or appends a new message
in every other case (empty transcript, different role, or 3000 ms or more
elapsed); consequently a run of same-role fragments each delivered within
3000 ms of the previous update leaves exactly one message for the run,
carrying the last fragment's text. -/
theorem transcript_fragment_rule :
    (∀ (now : Nat) (r rawText : List Nat) (l : List TranscriptMessage)
       (m : TranscriptMessage),
       jsTrim rawText ≠ [] → m.role = r → now - m.timestamp < 3000 →
       applyFragment now r rawText (l ++ [m])
         = l ++ [⟨r, jsTrim rawText, now⟩]) ∧
    (∀ (now : Nat) (r rawText : List Nat) (prev : List TranscriptMessage),
       jsTrim rawText ≠ [] → freshFor now r prev = true →
       applyFragment now r rawText prev = prev ++ [⟨r, jsTrim rawText, now⟩]) ∧
    (∀ (r : List Nat) (ts0 : List TranscriptMessage) (n₁ : Nat)
       (t₁ : List Nat) (frags : List (Nat × List Nat)),
       jsTrim t₁ = t₁ → t₁ ≠ [] → freshFor n₁ r ts0 = true →
       chainFrom n₁ frags = true →
       runFragments r frags (applyFragment n₁ r t₁ ts0)
         = ts0 ++ [⟨r, (lastFrag n₁ t₁ frags).2, (lastFrag n₁ t₁ frags).1⟩]) := by
  refine ⟨applyFragment_merge, applyFragment_append, ?_⟩
  intro r ts0 n₁ t₁ frags ht₁ hne hfresh hchain
  rw [applyFragment_append n₁ r t₁ ts0 (by rw [ht₁]; exact hne) hfresh, ht₁]
  exact runFragments_merge r frags ts0 t₁ n₁ hchain

/-- Witness for C1 at a concrete run: a fresh fragment `"a"` at time 0
followed by same-role fragments `"ab"` at 100 ms and `"abc"` at 200 ms
yields the single message `{user, "abc", 200}`. -/
theorem transcript_fragment_rule_witness :
    runFragments (codes "user") [(100, codes "ab"), (200, codes "abc")]
        (applyFragment 0 (codes "user") (codes "a") [])
      = [⟨codes "user", codes "abc", 200⟩] := by
  have h := transcript_fragment_rule.2.2 (codes "user") [] 0 (codes "a")
    [(100, codes "ab"), (200, codes "abc")] (by decide) (by decide)
    (by decide) (by decide)
  exact h.trans (by decide)

/-- C2: the call-end deduplication pass is a stable, order-preserving,
first-occurrence-wins filter on `(role, normalizedText)` keys: it agrees
with the spec's filter on every input, its output is a subsequence of the
input (original order, original unmodified messages), the input
`[user "Hi!", assistant "Hello", user "hi"]` yields
`[user "Hi!", assistant "Hello"]`, and the empty list yields the empty
list. -/
theorem dedup_first_occurrence :
    (∀ l, deduplicateTranscript l = dedupSpec l) ∧
    (∀ l, (deduplicateTranscript l).Sublist l) ∧
    deduplicateTranscript
        [⟨codes "user", codes "Hi!", 0⟩, ⟨codes "assistant", codes "Hello", 1⟩,
         ⟨codes "user", codes "hi", 2⟩]
      = [⟨codes "user", codes "Hi!", 0⟩,
         ⟨codes "assistant", codes "Hello", 1⟩] ∧
    deduplicateTranscript [] = [] := by
  refine ⟨?_, ?_, by decide, rfl⟩
  · intro l
    exact dedupGo_eq_specGo l [] [] (by simp)
  · intro l
    exact dedupGo_sublist [] l

/-- C8: deduplication is idempotent — running `deduplicateTranscript` on
its own output returns it unchanged. -/
theorem dedup_idempotent (l : List TranscriptMessage) :
    deduplicateTranscript (deduplicateTranscript l) = deduplicateTranscript l := by
  unfold deduplicateTranscript
  apply dedupGo_of_nodup
  · intro m _
    simp
  · exact dedupGo_keys_nodup l []

lemma bothActive_preserved : ∀ (evs : List AgentEvent) (s : AgentState),
    bothActive s = false → startCallSafe s evs = true →
    bothActive (runEvents s evs) = false := by
  intro evs
  induction evs with
  | nil => intro s h _; exact h
  | cons e rest ih =>
    intro s h hsafe
    unfold startCallSafe at hsafe
    simp only [Bool.and_eq_true] at hsafe
    apply ih
    · cases e with
      | callStart now => simpa [step, bothActive] using h
      | callEnd now => simp [step, bothActive]
      | speechStart => simp [step, bothActive]
      | speechEnd => simp [step, bothActive]
      | message now r t => simpa [step, bothActive] using h
      | errorEvt => simpa [step, bothActive] using h
      | startCall ok =>
        have hns : s.isSpeaking = false := by
          have h1 := hsafe.1
          simpa using h1
        cases ok with
        | true => simp [step, bothActive, hns]
        | false => simpa [step, bothActive] using h
      | endCall => exact h
      | endedTimeout => simpa [step, bothActive] using h
    · exact hsafe.2

/-- C7 counterexample: the claim quantifies over *any* sequence of the
handlers; the sequence `speech-start` then a successful `startCall` leaves
`isSpeaking` and `isListening` simultaneously true, because `startCall`
sets `isListening` without clearing `isSpeaking`. -/
theorem activity_flags_both_true_example :
    (runEvents initState [.speechStart, .startCall true]).isSpeaking = true ∧
    (runEvents initState [.speechStart, .startCall true]).isListening = true :=
  ⟨rfl, rfl⟩

/-- C7 (amended): over any handler sequence in which `startCall` never
fires while `isSpeaking` is true (in the UI the start button is only
reachable outside a call), `isSpeaking` and `isListening` are never
simultaneously true; `speech-start` sets speaking and clears listening,
`speech-end` sets listening and clears speaking (most recent event wins),
and `call-end` forces both to false. -/
theorem activity_flags_exclusive :
    (∀ evs : List AgentEvent, startCallSafe initState evs = true →
       bothActive (runEvents initState evs) = false) ∧
    (∀ s, (step s .speechStart).isSpeaking = true ∧
          (step s .speechStart).isListening = false) ∧
    (∀ s, (step s .speechEnd).isSpeaking = false ∧
          (step s .speechEnd).isListening = true) ∧
    (∀ s now, (step s (.callEnd now)).isSpeaking = false ∧
              (step s (.callEnd now)).isListening = false) :=
  ⟨fun evs h => bothActive_preserved evs initState rfl h,
    fun _ => ⟨rfl, rfl⟩, fun _ => ⟨rfl, rfl⟩, fun _ _ => ⟨rfl, rfl⟩⟩

/-- Witness for C7 (amended) on a concrete safe trace. -/
theorem activity_flags_exclusive_witness :
    bothActive (runEvents initState
      [.startCall true, .callStart 0, .speechStart, .speechEnd,
       .callEnd 10]) = false :=
  activity_flags_exclusive.1
    [.startCall true, .callStart 0, .speechStart, .speechEnd, .callEnd 10]
    (by decide)

/-- C9: a transcript-fragment event whose text trims to empty is a no-op
on the whole component state: transcript and every other field
unchanged. -/
theorem empty_fragment_noop (s : AgentState) (now : Nat)
    (role rawText : List Nat) (h : jsTrim rawText = []) :
    step s (.message now role rawText) = s := by
  have ha : applyFragment now role rawText s.transcript = s.transcript := by
    simp [applyFragment, h]
  show { s with transcript := applyFragment now role rawText s.transcript } = s
  rw [ha]

/-- Witness for C9: a whitespace-only fragment leaves the freshly mounted
state untouched. -/
theorem empty_fragment_noop_witness :
    step initState (.message 5 (codes "user") (codes "  ")) = initState :=
  empty_fragment_noop initState 5 (codes "user") (codes "  ") (by decide)

/-- Number of transcript entries carried by a request body. -/
def tlen (b : TBody) : Nat := (b.transcript.getD []).length

lemma validTB_false_iff (b : TBody) :
    validTB b = false ↔
      b.transcript = none ∨ ∃ ts, b.transcript = some ts ∧
        (ts.length < 1 ∨ ∃ e ∈ ts, e.role = [] ∨ e.text = [] ∨
          e.timestamp = TsVal.notNum) := by
  obtain ⟨cid, aid, st, en, otr, md, ex⟩ := b
  cases otr with
  | none => simp [validTB, parseTB]
  | some ts =>
    by_cases hc : (decide (1 ≤ ts.length) && ts.all validEntry) = true
    · simp only [validTB, parseTB, hc, if_true, Option.isSome_some,
        Bool.true_eq_false, false_iff, Option.some.injEq, exists_eq_left',
        not_or, reduceCtorEq, not_false_eq_true, true_and]
      rw [Bool.and_eq_true, decide_eq_true_eq, List.all_eq_true] at hc
      obtain ⟨h1, h2⟩ := hc
      push_neg
      refine ⟨by omega, ?_⟩
      intro e he
      have hv := h2 e he
      unfold validEntry at hv
      simp only [Bool.and_eq_true, decide_eq_true_eq] at hv
      refine ⟨?_, ?_, ?_⟩
      · intro hre
        have hlen := hv.1.1
        rw [hre] at hlen
        simp only [List.length_nil] at hlen
        omega
      · intro hte
        have hlen := hv.1.2
        rw [hte] at hlen
        simp only [List.length_nil] at hlen
        omega
      · intro hts
        have hm := hv.2
        rw [hts] at hm
        simp at hm
    · simp only [validTB, parseTB, hc, if_false, Option.isSome_none,
        true_iff, Option.some.injEq, exists_eq_left', reduceCtorEq, false_or]
      rw [Bool.and_eq_true, decide_eq_true_eq, List.all_eq_true,
        not_and_or] at hc
      rcases hc with h1 | h2
      · left; omega
      · right
        push_neg at h2
        obtain ⟨e, he, hev⟩ := h2
        refine ⟨e, he, ?_⟩
        replace hev : validEntry e = false := by simpa using hev
        unfold validEntry at hev
        rw [Bool.and_eq_false_iff, Bool.and_eq_false_iff] at hev
        rcases hev with (hr | ht) | hm
        · rw [decide_eq_false_iff_not] at hr
          exact Or.inl (List.length_eq_zero.mp (by omega))
        · rw [decide_eq_false_iff_not] at ht
          exact Or.inr (Or.inl (List.length_eq_zero.mp (by omega)))
        · refine Or.inr (Or.inr ?_)
          cases hts2 : e.timestamp with
          | num t => rw [hts2] at hm; simp at hm
          | notNum => rfl

/-- C4: the `/api/transcripts` handler returns 400 `{error, details}`
exactly on schema-validation failure (transcript missing or empty, or an
entry with empty role, empty text, or non-numeric timestamp), 413 when the
body validates but carries more than 2000 entries, 200 `{ok:true}` when
the webhook forward succeeds, and 502 when the webhook responds
non-success or the fetch throws. -/
theorem transcripts_endpoint_statuses (b : TBody) (w : FetchOutcome) :
    ((handleTranscripts b w).1 = .invalid ↔ validTB b = false) ∧
    ((handleTranscripts b w).1 = .tooLarge ↔
       validTB b = true ∧ 2000 < tlen b) ∧
    ((handleTranscripts b w).1 = .success ↔
       validTB b = true ∧ tlen b ≤ 2000 ∧ w = .ok) ∧
    ((handleTranscripts b w).1 = .upstream ↔
       validTB b = true ∧ tlen b ≤ 2000 ∧ w ≠ .ok) ∧
    (validTB b = false ↔
      b.transcript = none ∨ ∃ ts, b.transcript = some ts ∧
        (ts.length < 1 ∨ ∃ e ∈ ts, e.role = [] ∨ e.text = [] ∨
          e.timestamp = TsVal.notNum)) ∧
    trStatus .invalid = 400 ∧ trStatus .tooLarge = 413 ∧
    trStatus .success = 200 ∧ trStatus .upstream = 502 := by
  refine ⟨?_, ?_, ?_, ?_, validTB_false_iff b, rfl, rfl, rfl, rfl⟩ <;>
  · obtain ⟨cid, aid, st, en, otr, md, ex⟩ := b
    cases otr with
    | none => simp [handleTranscripts, validTB, parseTB, tlen]
    | some ts =>
      by_cases hc : (decide (1 ≤ ts.length) && ts.all validEntry) = true
      · by_cases hs : 2000 < ts.length
        · cases w <;> simp [handleTranscripts, validTB, parseTB, tlen, hc, hs]
        · cases w <;>
            simp [handleTranscripts, validTB, parseTB, tlen, hc, hs,
              Nat.not_lt.mp hs]
      · simp [handleTranscripts, validTB, parseTB, tlen, hc]

/-- A concrete request body: one valid transcript entry plus a top-level
field `"x"` not named in the schema. -/
def exBody : TBody :=
  ⟨none, none, none, none, some [⟨codes "user", codes "hi", .num 0⟩], none,
    [codes "x"]⟩

/-- C5 counterexample: a body carrying an unknown top-level field `"x"`
passes validation and the size check, but the payload POSTed to the
webhook is the zod-parsed data, which strips unknown keys — so the
forwarded JSON does not equal the received body. -/
theorem transcripts_forward_not_verbatim :
    validTB exBody = true ∧ tlen exBody ≤ 2000 ∧
    (handleTranscripts exBody .ok).2
      = some ⟨none, none, none, none,
          [⟨codes "user", codes "hi", .num 0⟩], none⟩ ∧
    payloadAsBody ⟨none, none, none, none,
        [⟨codes "user", codes "hi", .num 0⟩], none⟩ ≠ exBody :=
  ⟨by decide, by decide, by decide, by decide⟩

/-- C5 (amended): for every body passing validation and the size check,
the JSON body POSTed to the webhook equals the received request body with
its schema-named fields unchanged and any fields not named in the schema
removed (zod strips unknown keys). -/
theorem transcripts_forward_strips_unknown (b : TBody) (w : FetchOutcome)
    (hv : validTB b = true) (hs : tlen b ≤ 2000) :
    ∃ p, (handleTranscripts b w).2 = some p ∧
      payloadAsBody p = { b with extra := [] } := by
  obtain ⟨cid, aid, st, en, otr, md, ex⟩ := b
  cases otr with
  | none => simp [validTB, parseTB] at hv
  | some ts =>
    simp only [tlen, Option.getD_some] at hs
    by_cases hc : (decide (1 ≤ ts.length) && ts.all validEntry) = true
    · refine ⟨⟨cid, aid, st, en, ts, md⟩, ?_, ?_⟩
      · simp only [handleTranscripts, parseTB, hc, if_true]
        rw [if_neg (by simp only [decide_eq_true_eq]; omega :
          ¬ decide (2000 < ts.length) = true)]
        cases w <;> rfl
      · simp [payloadAsBody]
    · simp [validTB, parseTB, hc] at hv

/-- Witness for C5 (amended) at the concrete body `exBody`. -/
theorem transcripts_forward_strips_unknown_witness :
    ∃ p, (handleTranscripts exBody .ok).2 = some p ∧
      payloadAsBody p = { exBody with extra := [] } :=
  transcripts_forward_strips_unknown exBody .ok (by decide) (by decide)

/-- A concrete valid outbound-call body. -/
def exOCBody : OCBody := ⟨codes "pn", codes "as", ⟨codes "5551234567", none⟩⟩

/-- C6: the outbound-call handler returns 500 when the credential is
unconfigured; otherwise 400 with structured details on schema failure,
400 when the customer number does not normalize, 201 `{id, call}` with the
identifier extracted from the remote response on upstream success, and
502 when the upstream call throws. -/
theorem outbound_call_statuses (key : Bool) (b : OCBody)
    (u : UpstreamOutcome) :
    (key = false → outboundCallHandler key b u = .serverError ∧
       ocStatus (outboundCallHandler key b u) = 500) ∧
    (key = true → validOC b = false →
       outboundCallHandler key b u = .invalid ∧
       ocStatus (outboundCallHandler key b u) = 400) ∧
    (key = true → validOC b = true →
       normalizeToE164Like b.customer.number [49] = none →
       outboundCallHandler key b u = .badNumber ∧
       ocStatus (outboundCallHandler key b u) = 400) ∧
    (∀ n r, key = true → validOC b = true →
       normalizeToE164Like b.customer.number [49] = some n →
       u = .succeeded r →
       outboundCallHandler key b u = .created (extractCallId r) r ∧
       ocStatus (outboundCallHandler key b u) = 201) ∧
    (∀ n, key = true → validOC b = true →
       normalizeToE164Like b.customer.number [49] = some n → u = .threw →
       outboundCallHandler key b u = .upstreamFailed ∧
       ocStatus (outboundCallHandler key b u) = 502) := by
  refine ⟨?_, ?_, ?_, ?_, ?_⟩
  · rintro rfl
    exact ⟨rfl, rfl⟩
  · rintro rfl hv
    constructor <;> simp [outboundCallHandler, ocStatus, hv]
  · rintro rfl hv hn
    constructor <;> simp [outboundCallHandler, ocStatus, hv, hn]
  · rintro n r rfl hv hn rfl
    constructor <;> simp [outboundCallHandler, ocStatus, hv, hn]
  · rintro n rfl hv hn rfl
    constructor <;> simp [outboundCallHandler, ocStatus, hv, hn]

/-- Witness for C6 on a concrete configured, valid, successful request. -/
theorem outbound_call_statuses_witness :
    outboundCallHandler true exOCBody (.succeeded (.withId (codes "call1")))
      = .created (some (codes "call1")) (.withId (codes "call1")) ∧
    ocStatus (outboundCallHandler true exOCBody
        (.succeeded (.withId (codes "call1")))) = 201 := by
  have h := (outbound_call_statuses true exOCBody
      (.succeeded (.withId (codes "call1")))).2.2.2.1
    (codes "+15551234567") (.withId (codes "call1")) rfl (by decide)
    (by decide) rfl
  exact ⟨h.1.trans (by decide), h.2⟩

/-- C10: with `VAPI_API_KEY` unset, both outbound endpoints return 500 for
every request body — including invalid ones — because the credential check
precedes validation; no 400 is reachable in that configuration. -/
theorem unconfigured_key_always_500 :
    (∀ (b : OCBody) (u : UpstreamOutcome),
       outboundCallHandler false b u = .serverError ∧
       ocStatus (outboundCallHandler false b u) = 500 ∧
       ocStatus (outboundCallHandler false b u) ≠ 400) ∧
    (∀ (b : CampBody) (u : CampaignOutcome),
       outboundCampaignHandler false b u = .serverError ∧
       campStatus (outboundCampaignHandler false b u) = 500 ∧
       campStatus (outboundCampaignHandler false b u) ≠ 400) := by
  constructor
  · intro b u
    refine ⟨rfl, rfl, fun h => ?_⟩
    simp [outboundCallHandler, ocStatus] at h
  · intro b u
    refine ⟨rfl, rfl, fun h => ?_⟩
    simp [outboundCampaignHandler, campStatus] at h

end VapiCC
